import Mathlib

/-!
Shallow embedding of the speech2text segmentation pipeline (src/main.rs):
the voice-activity sample-rate tier mapping, the frame windower, and the
segment-accumulator loop, together with proofs of the segmentation
properties stated for them.
-/

namespace Speech2Text

/-- Hangover length in frames: the constant `SILENCE_PADDING` in src/main.rs. -/
def SILENCE_PADDING : Nat := 20

/-- State of the accumulator loop in `main`: the sample buffer and the two
run counters `silence_frames` and `speech_frames`. -/
structure AccState where
  buffer : List Int
  silence_frames : Nat
  speech_frames : Nat
deriving DecidableEq

/-- Loop state at stream start: empty buffer, both counters zero. -/
def initState : AccState := ⟨[], 0, 0⟩

/-- One iteration of the accumulator loop body in `main`, given the collected
frame and the classifier verdict `is_voice`.  Returns the new state together
with the emitted segment, if any.  The `none` result models the panic of the
slice expression `buffer[buffer.len() - frame_sample_count * SILENCE_PADDING..]`
when its start index underflows. -/
def stepFrame (fsc : Nat) (s : AccState) (frame : List Int) (is_voice : Bool) :
    Option (AccState × Option (List Int)) :=
  let buf := s.buffer ++ frame
  if is_voice then
    some (⟨buf, 0, s.speech_frames + 1⟩, none)
  else
    let sil := s.silence_frames + 1
    if s.speech_frames = 0 then
      if SILENCE_PADDING < sil then
        if buf.length < fsc * SILENCE_PADDING then none
        else some (⟨buf.drop (buf.length - fsc * SILENCE_PADDING), SILENCE_PADDING, 0⟩, none)
      else some (⟨buf, sil, 0⟩, none)
    else if sil < SILENCE_PADDING then
      some (⟨buf, sil, s.speech_frames⟩, none)
    else
      some (⟨[], 0, 0⟩, some buf)

/-- Run the accumulator loop over a list of classified frames, collecting the
emitted segments in order. -/
def runAcc (fsc : Nat) : AccState → List (List Int × Bool) → Option (AccState × List (List Int))
  | s, [] => some (s, [])
  | s, (f, v) :: rest =>
    (stepFrame fsc s f v).bind fun r =>
      (runAcc fsc r.1 rest).map fun q => (q.1, r.2.toList ++ q.2)

/-- Every frame in the list has `fsc` samples. -/
def WF (fsc : Nat) (l : List (List Int × Bool)) : Prop :=
  ∀ p ∈ l, p.1.length = fsc

/-- Every frame in the list has `fsc` samples and is classified as silence. -/
def SilentRun (fsc : Nat) (l : List (List Int × Bool)) : Prop :=
  ∀ p ∈ l, p.1.length = fsc ∧ p.2 = false

/-- Every frame in the list has `fsc` samples and is classified as voice. -/
def VoiceRun (fsc : Nat) (l : List (List Int × Bool)) : Prop :=
  ∀ p ∈ l, p.1.length = fsc ∧ p.2 = true

/-- A state the accumulator loop can reach from stream start on well-formed
frames. -/
def Reachable (fsc : Nat) (s : AccState) : Prop :=
  ∃ l segs, WF fsc l ∧ runAcc fsc initState l = some (s, segs)

theorem stepFrame_voice (fsc : Nat) (s : AccState) (f : List Int) :
    stepFrame fsc s f true = some (⟨s.buffer ++ f, 0, s.speech_frames + 1⟩, none) := rfl

theorem stepFrame_silent_lead (fsc : Nat) (s : AccState) (f : List Int)
    (hsp : s.speech_frames = 0) (h : s.silence_frames + 1 ≤ SILENCE_PADDING) :
    stepFrame fsc s f false = some (⟨s.buffer ++ f, s.silence_frames + 1, 0⟩, none) := by
  simp [stepFrame, hsp, Nat.not_lt.mpr h]

theorem stepFrame_silent_trim (fsc : Nat) (s : AccState) (f : List Int)
    (hsp : s.speech_frames = 0) (h : SILENCE_PADDING < s.silence_frames + 1)
    (hlen : fsc * SILENCE_PADDING ≤ (s.buffer ++ f).length) :
    stepFrame fsc s f false =
      some (⟨(s.buffer ++ f).drop ((s.buffer ++ f).length - fsc * SILENCE_PADDING),
             SILENCE_PADDING, 0⟩, none) := by
  simp [stepFrame, hsp, h]
  simpa using hlen

theorem stepFrame_silent_pause (fsc : Nat) (s : AccState) (f : List Int)
    (hsp : s.speech_frames ≠ 0) (h : s.silence_frames + 1 < SILENCE_PADDING) :
    stepFrame fsc s f false =
      some (⟨s.buffer ++ f, s.silence_frames + 1, s.speech_frames⟩, none) := by
  simp [stepFrame, hsp, h]

theorem stepFrame_silent_emit (fsc : Nat) (s : AccState) (f : List Int)
    (hsp : s.speech_frames ≠ 0) (h : SILENCE_PADDING ≤ s.silence_frames + 1) :
    stepFrame fsc s f false = some (⟨[], 0, 0⟩, some (s.buffer ++ f)) := by
  simp [stepFrame, hsp, Nat.not_lt.mpr h]

theorem runAcc_nil (fsc : Nat) (s : AccState) : runAcc fsc s [] = some (s, []) := rfl

theorem runAcc_cons (fsc : Nat) (s : AccState) (f : List Int) (v : Bool)
    (rest : List (List Int × Bool)) :
    runAcc fsc s ((f, v) :: rest) =
      (stepFrame fsc s f v).bind fun r =>
        (runAcc fsc r.1 rest).map fun q => (q.1, r.2.toList ++ q.2) := rfl

theorem runAcc_append (fsc : Nat) (l1 l2 : List (List Int × Bool)) : ∀ s : AccState,
    runAcc fsc s (l1 ++ l2) =
      (runAcc fsc s l1).bind fun r =>
        (runAcc fsc r.1 l2).map fun q => (q.1, r.2 ++ q.2) := by
  induction l1 with
  | nil =>
    intro s
    cases h : runAcc fsc s l2 with
    | none => simp [runAcc, h]
    | some q => simp [runAcc, h]
  | cons p rest ih =>
    intro s
    obtain ⟨f, v⟩ := p
    cases hs : stepFrame fsc s f v with
    | none => simp [runAcc_cons, hs]
    | some r =>
      simp only [List.cons_append, runAcc_cons, hs, Option.some_bind, ih r.1]
      cases h1 : runAcc fsc r.1 rest with
      | none => simp
      | some q =>
        cases h2 : runAcc fsc q.1 l2 with
        | none => simp [h2]
        | some q2 => simp [h2, List.append_assoc]

theorem runAcc_silent (fsc : Nat) : ∀ l : List (List Int × Bool), SilentRun fsc l →
    ∀ (buf : List Int) (c : Nat), buf.length = c * fsc → c ≤ SILENCE_PADDING →
    ∃ buf2 : List Int,
      runAcc fsc ⟨buf, c, 0⟩ l = some (⟨buf2, min (c + l.length) SILENCE_PADDING, 0⟩, []) ∧
      buf2.length = min (c + l.length) SILENCE_PADDING * fsc := by
  intro l
  induction l with
  | nil =>
    intro _ buf c hb hc
    refine ⟨buf, ?_, ?_⟩
    · simp [runAcc_nil, Nat.min_eq_left hc]
    · simpa [Nat.min_eq_left hc] using hb
  | cons p rest ih =>
    intro hl buf c hb hc
    obtain ⟨f, v⟩ := p
    have hf : f.length = fsc := (hl (f, v) (by simp)).1
    have hv : v = false := (hl (f, v) (by simp)).2
    subst hv
    have hrest : SilentRun fsc rest := fun q hq => hl q (by simp [hq])
    by_cases hcl : c = SILENCE_PADDING
    · subst hcl
      have hlen : fsc * SILENCE_PADDING ≤ (buf ++ f).length := by
        simp only [List.length_append, hb, hf]
        calc fsc * SILENCE_PADDING ≤ SILENCE_PADDING * fsc := by rw [Nat.mul_comm]
        _ ≤ SILENCE_PADDING * fsc + fsc := Nat.le_add_right _ _
      rw [runAcc_cons,
        stepFrame_silent_trim fsc ⟨buf, SILENCE_PADDING, 0⟩ f rfl (Nat.lt_succ_self _) hlen]
      simp only [Option.some_bind]
      have hb2 : ((buf ++ f).drop ((buf ++ f).length - fsc * SILENCE_PADDING)).length
          = SILENCE_PADDING * fsc := by
        simp only [List.length_drop, List.length_append, hb, hf]
        rw [Nat.mul_comm fsc SILENCE_PADDING]
        omega
      obtain ⟨buf2, h1, h2⟩ := ih hrest _ SILENCE_PADDING hb2 (Nat.le_refl _)
      refine ⟨buf2, ?_, ?_⟩
      · rw [h1]
        have : min (SILENCE_PADDING + rest.length) SILENCE_PADDING
            = min (SILENCE_PADDING + (rest.length + 1)) SILENCE_PADDING := by omega
        simp [this]
      · have : min (SILENCE_PADDING + rest.length) SILENCE_PADDING
            = min (SILENCE_PADDING + (rest.length + 1)) SILENCE_PADDING := by omega
        simp only [List.length_cons]
        rw [← this]; exact h2
    · have hc1 : c + 1 ≤ SILENCE_PADDING := by omega
      rw [runAcc_cons, stepFrame_silent_lead fsc ⟨buf, c, 0⟩ f rfl hc1]
      simp only [Option.some_bind]
      have hb2 : (buf ++ f).length = (c + 1) * fsc := by
        simp only [List.length_append, hb, hf]; ring
      obtain ⟨buf2, h1, h2⟩ := ih hrest _ (c + 1) hb2 hc1
      refine ⟨buf2, ?_, ?_⟩
      · rw [h1]
        have : c + 1 + rest.length = c + (rest.length + 1) := by omega
        simp [this]
      · have : c + 1 + rest.length = c + (rest.length + 1) := by omega
        simp only [List.length_cons]
        rw [← this]; exact h2

theorem runAcc_voice (fsc : Nat) : ∀ l : List (List Int × Bool), VoiceRun fsc l → l ≠ [] →
    ∀ s : AccState, ∃ buf2 : List Int,
      runAcc fsc s l = some (⟨buf2, 0, s.speech_frames + l.length⟩, []) ∧
      buf2.length = s.buffer.length + l.length * fsc := by
  intro l
  induction l with
  | nil => intro _ h; exact absurd rfl h
  | cons p rest ih =>
    intro hl _ s
    obtain ⟨f, v⟩ := p
    have hf : f.length = fsc := (hl (f, v) (by simp)).1
    have hv : v = true := (hl (f, v) (by simp)).2
    subst hv
    rw [runAcc_cons, stepFrame_voice]
    simp only [Option.some_bind]
    by_cases hr : rest = []
    · subst hr
      refine ⟨s.buffer ++ f, by simp [runAcc_nil], by simp [hf]⟩
    · obtain ⟨buf2, h1, h2⟩ :=
        ih (fun q hq => hl q (by simp [hq])) hr ⟨s.buffer ++ f, 0, s.speech_frames + 1⟩
      refine ⟨buf2, ?_, ?_⟩
      · rw [h1]
        have : s.speech_frames + 1 + rest.length = s.speech_frames + (rest.length + 1) := by
          omega
        simp [this]
      · simp only [List.length_append, hf] at h2
        simp only [List.length_cons]
        rw [h2]; ring

theorem runAcc_pause (fsc : Nat) : ∀ l : List (List Int × Bool), SilentRun fsc l →
    ∀ s : AccState, 0 < s.speech_frames →
    s.silence_frames + l.length < SILENCE_PADDING →
    ∃ buf2 : List Int,
      runAcc fsc s l = some (⟨buf2, s.silence_frames + l.length, s.speech_frames⟩, []) ∧
      buf2.length = s.buffer.length + l.length * fsc := by
  intro l
  induction l with
  | nil =>
    intro _ s _ _
    exact ⟨s.buffer, by simp [runAcc_nil], by simp⟩
  | cons p rest ih =>
    intro hl s hsp hsil
    obtain ⟨f, v⟩ := p
    have hf : f.length = fsc := (hl (f, v) (by simp)).1
    have hv : v = false := (hl (f, v) (by simp)).2
    subst hv
    rw [runAcc_cons,
      stepFrame_silent_pause fsc s f (Nat.pos_iff_ne_zero.mp hsp) (by simp at hsil; omega)]
    simp only [Option.some_bind]
    obtain ⟨buf2, h1, h2⟩ := ih (fun q hq => hl q (by simp [hq]))
      ⟨s.buffer ++ f, s.silence_frames + 1, s.speech_frames⟩ hsp (by simp at hsil ⊢; omega)
    refine ⟨buf2, ?_, ?_⟩
    · rw [h1]
      have : s.silence_frames + 1 + rest.length = s.silence_frames + (rest.length + 1) := by
        omega
      simp [this]
    · simp only [List.length_append, hf] at h2
      simp only [List.length_cons]
      rw [h2]; ring

theorem runAcc_finish (fsc : Nat) : ∀ l : List (List Int × Bool), SilentRun fsc l →
    ∀ s : AccState, 0 < s.speech_frames →
    s.silence_frames + l.length = SILENCE_PADDING → l ≠ [] →
    ∃ seg : List Int,
      runAcc fsc s l = some (⟨[], 0, 0⟩, [seg]) ∧
      seg.length = s.buffer.length + l.length * fsc := by
  intro l
  induction l with
  | nil => intro _ _ _ _ h; exact absurd rfl h
  | cons p rest ih =>
    intro hl s hsp hsil _
    obtain ⟨f, v⟩ := p
    have hf : f.length = fsc := (hl (f, v) (by simp)).1
    have hv : v = false := (hl (f, v) (by simp)).2
    subst hv
    by_cases hr : rest = []
    · subst hr
      have hone : s.silence_frames + 1 = SILENCE_PADDING := by simpa using hsil
      rw [runAcc_cons,
        stepFrame_silent_emit fsc s f (Nat.pos_iff_ne_zero.mp hsp) (by omega)]
      simp only [Option.some_bind]
      refine ⟨s.buffer ++ f, by simp [runAcc_nil, Option.toList], by simp [hf]⟩
    · have hlt : s.silence_frames + 1 < SILENCE_PADDING := by
        have : rest.length ≠ 0 := fun h => hr (List.length_eq_zero.mp h)
        simp at hsil; omega
      rw [runAcc_cons, stepFrame_silent_pause fsc s f (Nat.pos_iff_ne_zero.mp hsp) hlt]
      simp only [Option.some_bind]
      obtain ⟨seg, h1, h2⟩ := ih (fun q hq => hl q (by simp [hq]))
        ⟨s.buffer ++ f, s.silence_frames + 1, s.speech_frames⟩ hsp
        (by simp at hsil ⊢; omega) hr
      refine ⟨seg, ?_, ?_⟩
      · rw [h1]; simp
      · simp only [List.length_append, hf] at h2
        simp only [List.length_cons]
        rw [h2]; ring

theorem silentRun_replicate (fsc n : Nat) :
    SilentRun fsc (List.replicate n (List.replicate fsc (0 : Int), false)) := by
  intro p hp
  rw [List.eq_of_mem_replicate hp]
  exact ⟨by simp, rfl⟩

theorem voiceRun_replicate (fsc n : Nat) :
    VoiceRun fsc (List.replicate n (List.replicate fsc (0 : Int), true)) := by
  intro p hp
  rw [List.eq_of_mem_replicate hp]
  exact ⟨by simp, rfl⟩

theorem emission_general (fsc : Nat) (lead speech tail : List (List Int × Bool))
    (hlead : SilentRun fsc lead) (hspeech : VoiceRun fsc speech) (hne : speech ≠ [])
    (htail : SilentRun fsc tail) (htl : tail.length = SILENCE_PADDING) :
    ∃ seg : List Int,
      runAcc fsc initState (lead ++ speech ++ tail) = some (⟨[], 0, 0⟩, [seg]) ∧
      seg.length
        = (min lead.length SILENCE_PADDING + speech.length + SILENCE_PADDING) * fsc := by
  obtain ⟨buf1, h1, hl1⟩ := runAcc_silent fsc lead hlead [] 0 (by simp) (by simp)
  simp only [Nat.zero_add] at h1 hl1
  obtain ⟨buf2, h2, hl2⟩ :=
    runAcc_voice fsc speech hspeech hne ⟨buf1, min lead.length SILENCE_PADDING, 0⟩
  simp only [Nat.zero_add] at h2 hl2
  have hpos : (0 : Nat) < speech.length := List.length_pos.mpr hne
  have htne : tail ≠ [] := by
    apply List.ne_nil_of_length_pos
    rw [htl]; decide
  obtain ⟨seg, h3, hl3⟩ :=
    runAcc_finish fsc tail htail ⟨buf2, 0, speech.length⟩ hpos (by simpa using htl) htne
  refine ⟨seg, ?_, ?_⟩
  · simp [initState, runAcc_append, h1, h2, h3]
  · simp only at hl3
    rw [hl3, hl2, hl1, htl]
    ring

/-- C1: a run of voice frames preceded by arbitrary leading silence and followed
by exactly `SILENCE_PADDING` silent frames makes the accumulator emit exactly one
segment, at the `SILENCE_PADDING`-th silent frame, whose sample length is
`(min leading_silence SILENCE_PADDING + speech_frames + SILENCE_PADDING) * fsc`;
concretely with `fsc = 160`, feeding 25 silent, 5 voice, then 25 silent frames
yields one segment of `(20+5+20)*160 = 7200` samples, and the 5 silent frames
past the threshold seed the next leading-silence window instead of joining the
segment. -/
theorem emission_trigger (fsc : Nat) (lead speech tail : List (List Int × Bool))
    (hlead : SilentRun fsc lead) (hspeech : VoiceRun fsc speech) (hne : speech ≠ [])
    (htail : SilentRun fsc tail) (htl : tail.length = SILENCE_PADDING) :
    (∃ seg : List Int,
       runAcc fsc initState (lead ++ speech ++ tail) = some (initState, [seg]) ∧
       seg.length
         = (min lead.length SILENCE_PADDING + speech.length + SILENCE_PADDING) * fsc) ∧
    (∃ s2 : AccState, ∃ seg : List Int,
       runAcc 160 initState
         (List.replicate 25 (List.replicate 160 (0 : Int), false)
           ++ List.replicate 5 (List.replicate 160 (0 : Int), true)
           ++ List.replicate 25 (List.replicate 160 (0 : Int), false))
         = some (s2, [seg]) ∧
       seg.length = 7200 ∧ s2.buffer.length = 800 ∧
       s2.silence_frames = 5 ∧ s2.speech_frames = 0) := by
  constructor
  · obtain ⟨seg, hrun, hlen⟩ := emission_general fsc lead speech tail hlead hspeech hne htail htl
    exact ⟨seg, hrun, hlen⟩
  · have h2025 : List.replicate 25 (List.replicate 160 (0 : Int), false)
        = List.replicate 20 (List.replicate 160 (0 : Int), false)
          ++ List.replicate 5 (List.replicate 160 (0 : Int), false) := by
      rw [← List.replicate_add]
    have hsplit : List.replicate 25 (List.replicate 160 (0 : Int), false)
          ++ List.replicate 5 (List.replicate 160 (0 : Int), true)
          ++ List.replicate 25 (List.replicate 160 (0 : Int), false)
        = (List.replicate 25 (List.replicate 160 (0 : Int), false)
            ++ List.replicate 5 (List.replicate 160 (0 : Int), true)
            ++ List.replicate 20 (List.replicate 160 (0 : Int), false))
          ++ List.replicate 5 (List.replicate 160 (0 : Int), false) := by
      simp [h2025, List.append_assoc]
    obtain ⟨seg, hrun, hlen⟩ := emission_general 160
      (List.replicate 25 (List.replicate 160 (0 : Int), false))
      (List.replicate 5 (List.replicate 160 (0 : Int), true))
      (List.replicate 20 (List.replicate 160 (0 : Int), false))
      (silentRun_replicate 160 25) (voiceRun_replicate 160 5)
      (by simp) (silentRun_replicate 160 20) (by simp [SILENCE_PADDING])
    obtain ⟨buf2, hs, hbl⟩ := runAcc_silent 160
      (List.replicate 5 (List.replicate 160 (0 : Int), false))
      (silentRun_replicate 160 5) [] 0 (by simp) (by simp)
    have hmin5 : min (0 + (List.replicate 5 (List.replicate 160 (0 : Int), false)).length)
        SILENCE_PADDING = 5 := by
      simp [SILENCE_PADDING]
    rw [hmin5] at hs hbl
    refine ⟨⟨buf2, 5, 0⟩, seg, ?_, ?_, ?_, rfl, rfl⟩
    · rw [hsplit, runAcc_append, hrun]
      simp only [Option.some_bind, initState]
      rw [hs]
      simp
    · rw [hlen]
      norm_num [SILENCE_PADDING]
    · rw [hbl]

/-- C2: on a stream consisting only of silent frames, the retained buffer length
after every processed frame never exceeds `SILENCE_PADDING * fsc` samples, no
matter how many frames are fed. -/
theorem leading_silence_bound (fsc : Nat) (l : List (List Int × Bool))
    (hl : SilentRun fsc l) :
    ∃ s : AccState, runAcc fsc initState l = some (s, []) ∧
      s.buffer.length ≤ SILENCE_PADDING * fsc := by
  obtain ⟨buf2, h1, h2⟩ := runAcc_silent fsc l hl [] 0 (by simp) (by simp)
  refine ⟨⟨buf2, min (0 + l.length) SILENCE_PADDING, 0⟩, by simpa [initState] using h1, ?_⟩
  simp only
  rw [h2]
  exact Nat.mul_le_mul_right _ (Nat.min_le_right _ _)

theorem leading_silence_bound_witness :
    ∃ s : AccState,
      runAcc 160 initState (List.replicate 30 (List.replicate 160 (0 : Int), false))
        = some (s, []) ∧
      s.buffer.length ≤ SILENCE_PADDING * 160 :=
  leading_silence_bound 160 _ (silentRun_replicate 160 30)

theorem runAcc_voice_mk (fsc : Nat) (l : List (List Int × Bool)) (hl : VoiceRun fsc l)
    (hne : l ≠ []) (buf : List Int) (c p : Nat) :
    ∃ buf2 : List Int,
      runAcc fsc ⟨buf, c, p⟩ l = some (⟨buf2, 0, p + l.length⟩, []) ∧
      buf2.length = buf.length + l.length * fsc :=
  runAcc_voice fsc l hl hne ⟨buf, c, p⟩

theorem runAcc_pause_mk (fsc : Nat) (l : List (List Int × Bool)) (hl : SilentRun fsc l)
    (buf : List Int) (c p : Nat) (hp : 0 < p) (hc : c + l.length < SILENCE_PADDING) :
    ∃ buf2 : List Int,
      runAcc fsc ⟨buf, c, p⟩ l = some (⟨buf2, c + l.length, p⟩, []) ∧
      buf2.length = buf.length + l.length * fsc :=
  runAcc_pause fsc l hl ⟨buf, c, p⟩ hp hc

theorem runAcc_finish_mk (fsc : Nat) (l : List (List Int × Bool)) (hl : SilentRun fsc l)
    (buf : List Int) (c p : Nat) (hp : 0 < p) (hc : c + l.length = SILENCE_PADDING)
    (hne : l ≠ []) :
    ∃ seg : List Int,
      runAcc fsc ⟨buf, c, p⟩ l = some (⟨[], 0, 0⟩, [seg]) ∧
      seg.length = buf.length + l.length * fsc :=
  runAcc_finish fsc l hl ⟨buf, c, p⟩ hp hc hne

/-- Interior structure of an interrupted speech run: each block is a silence gap
followed by a further voice run. -/
def blockStream : List (List (List Int × Bool) × List (List Int × Bool)) → List (List Int × Bool)
  | [] => []
  | b :: rest => b.1 ++ b.2 ++ blockStream rest

theorem runAcc_blocks (fsc : Nat) :
    ∀ blocks : List (List (List Int × Bool) × List (List Int × Bool)),
    (∀ b ∈ blocks, SilentRun fsc b.1 ∧ b.1.length < SILENCE_PADDING ∧
      VoiceRun fsc b.2 ∧ b.2 ≠ []) →
    ∀ tail : List (List Int × Bool), SilentRun fsc tail → tail.length = SILENCE_PADDING →
    ∀ (buf : List Int) (p : Nat), 0 < p →
    ∃ seg : List Int,
      runAcc fsc ⟨buf, 0, p⟩ (blockStream blocks ++ tail) = some (⟨[], 0, 0⟩, [seg]) ∧
      seg.length = buf.length + ((blockStream blocks).length + SILENCE_PADDING) * fsc := by
  intro blocks
  induction blocks with
  | nil =>
    intro _ tail htail htl buf p hp
    have htne : tail ≠ [] := by
      apply List.ne_nil_of_length_pos; rw [htl]; decide
    obtain ⟨seg, h1, h2⟩ := runAcc_finish_mk fsc tail htail buf 0 p hp (by simpa using htl) htne
    refine ⟨seg, ?_, ?_⟩
    · simpa [blockStream] using h1
    · rw [h2, htl]; simp [blockStream]
  | cons b rest ih =>
    intro hb tail htail htl buf p hp
    obtain ⟨hbs, hblen, hbv, hbne⟩ := hb b (by simp)
    have hrest : ∀ q ∈ rest, SilentRun fsc q.1 ∧ q.1.length < SILENCE_PADDING ∧
        VoiceRun fsc q.2 ∧ q.2 ≠ [] := fun q hq => hb q (by simp [hq])
    obtain ⟨buf1, h1, hl1⟩ := runAcc_pause_mk fsc b.1 hbs buf 0 p hp (by simpa using hblen)
    obtain ⟨buf2, h2, hl2⟩ := runAcc_voice_mk fsc b.2 hbv hbne buf1 (0 + b.1.length) p
    obtain ⟨seg, h3, hl3⟩ := ih hrest tail htail htl buf2 (p + b.2.length) (by omega)
    simp only [Nat.zero_add] at h1 h2
    refine ⟨seg, ?_, ?_⟩
    · have hstream : blockStream (b :: rest) ++ tail
          = b.1 ++ (b.2 ++ (blockStream rest ++ tail)) := by
        simp [blockStream]
      rw [hstream]
      revert h3
      generalize blockStream rest ++ tail = L
      intro h3
      simp [runAcc_append, h1, h2, h3]
    · rw [hl3, hl2, hl1]
      simp [blockStream]
      ring

/-- C3: a speech run interrupted by one or more interior gaps of fewer than
`SILENCE_PADDING` consecutive silent frames each causes no emission during any
gap; the whole run is emitted as exactly one segment spanning the speech before
and after the gaps. -/
theorem no_premature_split (fsc : Nat) (lead voice0 : List (List Int × Bool))
    (blocks : List (List (List Int × Bool) × List (List Int × Bool)))
    (tail : List (List Int × Bool))
    (hlead : SilentRun fsc lead) (hv0 : VoiceRun fsc voice0) (hv0ne : voice0 ≠ [])
    (hblocks : ∀ b ∈ blocks, SilentRun fsc b.1 ∧ b.1 ≠ [] ∧
      b.1.length < SILENCE_PADDING ∧ VoiceRun fsc b.2 ∧ b.2 ≠ [])
    (hbne : blocks ≠ [])
    (htail : SilentRun fsc tail) (htl : tail.length = SILENCE_PADDING) :
    ∃ seg : List Int,
      runAcc fsc initState (lead ++ voice0 ++ blockStream blocks ++ tail)
        = some (⟨[], 0, 0⟩, [seg]) ∧
      seg.length = (min lead.length SILENCE_PADDING + voice0.length
        + (blockStream blocks).length + SILENCE_PADDING) * fsc := by
  obtain ⟨buf1, h1, hl1⟩ := runAcc_silent fsc lead hlead [] 0 (by simp) (by simp)
  simp only [Nat.zero_add] at h1 hl1
  obtain ⟨buf2, h2, hl2⟩ :=
    runAcc_voice_mk fsc voice0 hv0 hv0ne buf1 (min lead.length SILENCE_PADDING) 0
  obtain ⟨seg, h3, hl3⟩ := runAcc_blocks fsc blocks
    (fun b hb => ⟨(hblocks b hb).1, (hblocks b hb).2.2.1, (hblocks b hb).2.2.2.1,
      (hblocks b hb).2.2.2.2⟩)
    tail htail htl buf2 (0 + voice0.length)
    (by simpa using List.length_pos.mpr hv0ne)
  simp only [Nat.zero_add] at h2 h3
  refine ⟨seg, ?_, ?_⟩
  · have hstream : lead ++ voice0 ++ blockStream blocks ++ tail
        = lead ++ (voice0 ++ (blockStream blocks ++ tail)) := by
      simp [List.append_assoc]
    rw [hstream]
    revert h3
    generalize blockStream blocks ++ tail = L
    intro h3
    simp [initState, runAcc_append, h1, h2, h3]
  · rw [hl3, hl2, hl1]
    ring

theorem stepFrame_silent_trim_panic (fsc : Nat) (s : AccState) (f : List Int)
    (hsp : s.speech_frames = 0) (h : SILENCE_PADDING < s.silence_frames + 1)
    (hlen : (s.buffer ++ f).length < fsc * SILENCE_PADDING) :
    stepFrame fsc s f false = none := by
  simp [stepFrame, hsp, h]
  simpa using hlen

/-- Modelled on the claimed data-model invariant: the first component counts
consecutive silent frames since the most recent voice frame (or stream start,
or the reset at an emission) without any clamping, and the second counts voice
frames accumulated since the segment buffer was last cleared. -/
def specStep (g : Nat × Nat) (is_voice : Bool) : Nat × Nat :=
  if is_voice then (0, g.2 + 1)
  else if g.2 = 0 then (g.1 + 1, 0)
  else if g.1 + 1 < SILENCE_PADDING then (g.1 + 1, g.2)
  else (0, 0)

/-- Fold of `specStep` over the classifications of a stream. -/
def specRun (g : Nat × Nat) : List Bool → Nat × Nat
  | [] => g
  | v :: rest => specRun (specStep g v) rest

/-- Simulation relation between the loop state and the spec-level counters. -/
def Sim (fsc : Nat) (s : AccState) (g : Nat × Nat) : Prop :=
  s.speech_frames = g.2 ∧
  s.silence_frames = (if g.2 = 0 then min g.1 SILENCE_PADDING else g.1) ∧
  (0 < g.2 → g.1 < SILENCE_PADDING) ∧
  (g.2 = 0 → s.buffer.length = s.silence_frames * fsc)

theorem sim_init (fsc : Nat) : Sim fsc initState (0, 0) := by
  refine ⟨rfl, by simp [initState], ?_, by simp [initState]⟩
  intro h
  omega

theorem sim_step (fsc : Nat) (s : AccState) (g : Nat × Nat) (f : List Int) (v : Bool)
    (r : AccState × Option (List Int)) (hf : f.length = fsc) (hsim : Sim fsc s g)
    (h : stepFrame fsc s f v = some r) : Sim fsc r.1 (specStep g v) := by
  obtain ⟨hsp, hsil, hlt, hbuf⟩ := hsim
  cases v with
  | true =>
    rw [stepFrame_voice] at h
    obtain rfl : r = (⟨s.buffer ++ f, 0, s.speech_frames + 1⟩, none) :=
      (Option.some.inj h).symm
    refine ⟨by simp [specStep, hsp], by simp [specStep], ?_, by simp [specStep]⟩
    intro _
    simp [specStep, SILENCE_PADDING]
  | false =>
    by_cases hz : s.speech_frames = 0
    · have hg2 : g.2 = 0 := by rw [← hsp]; exact hz
      by_cases htr : SILENCE_PADDING < s.silence_frames + 1
      · by_cases hguard : (s.buffer ++ f).length < fsc * SILENCE_PADDING
        · rw [stepFrame_silent_trim_panic fsc s f hz htr hguard] at h
          exact absurd h (by simp)
        · rw [stepFrame_silent_trim fsc s f hz htr (Nat.not_lt.mp hguard)] at h
          obtain rfl := (Option.some.inj h).symm
          have hgeSP : SILENCE_PADDING ≤ g.1 := by
            rw [hsil, if_pos hg2] at htr
            omega
          have hge := Nat.not_lt.mp hguard
          refine ⟨by simp [specStep, hg2], ?_, ?_, ?_⟩
          · simp [specStep, hg2]
            omega
          · intro hpos
            simp [specStep, hg2] at hpos
          · intro _
            simp only [List.length_drop]
            rw [Nat.mul_comm SILENCE_PADDING fsc]
            omega
      · rw [stepFrame_silent_lead fsc s f hz (Nat.not_lt.mp htr)] at h
        obtain rfl := (Option.some.inj h).symm
        have hleSP : g.1 + 1 ≤ SILENCE_PADDING := by
          rw [hsil, if_pos hg2] at htr
          omega
        have hsilg : s.silence_frames = g.1 := by
          rw [hsil, if_pos hg2]
          omega
        have hb := hbuf hg2
        refine ⟨by simp [specStep, hg2], ?_, ?_, ?_⟩
        · simp [specStep, hg2, hsilg]
          omega
        · intro hpos
          simp [specStep, hg2] at hpos
        · intro _
          simp only [List.length_append, hf, hb]
          ring
    · have hg2 : g.2 ≠ 0 := fun hh => hz (by rw [hsp, hh])
      have hsilg : s.silence_frames = g.1 := by rw [hsil, if_neg hg2]
      have hglt : g.1 < SILENCE_PADDING := hlt (Nat.pos_of_ne_zero hg2)
      by_cases hlt2 : s.silence_frames + 1 < SILENCE_PADDING
      · rw [stepFrame_silent_pause fsc s f hz hlt2] at h
        obtain rfl := (Option.some.inj h).symm
        have hcond : g.1 + 1 < SILENCE_PADDING := by rw [← hsilg]; exact hlt2
        refine ⟨by simp [specStep, hg2, hcond, hsp], ?_, ?_, ?_⟩
        · simp [specStep, hg2, hcond, hsilg]
        · intro _
          simpa [specStep, hg2, hcond] using hcond
        · intro hh
          simp [specStep, hg2, hcond] at hh
      · rw [stepFrame_silent_emit fsc s f hz (Nat.not_lt.mp hlt2)] at h
        obtain rfl := (Option.some.inj h).symm
        have hcond : ¬ (g.1 + 1 < SILENCE_PADDING) := by rw [← hsilg]; exact hlt2
        refine ⟨by simp [specStep, hg2, hcond], by simp [specStep, hg2, hcond], ?_, ?_⟩
        · intro hh
          simp [specStep, hg2, hcond] at hh
        · intro _
          simp [specStep, hg2, hcond]

theorem sim_run (fsc : Nat) : ∀ l : List (List Int × Bool), WF fsc l →
    ∀ (s : AccState) (g : Nat × Nat) (s2 : AccState) (segs : List (List Int)),
    Sim fsc s g → runAcc fsc s l = some (s2, segs) →
    Sim fsc s2 (specRun g (l.map Prod.snd)) := by
  intro l
  induction l with
  | nil =>
    intro _ s g s2 segs hsim h
    rw [runAcc_nil] at h
    obtain ⟨rfl, rfl⟩ : s = s2 ∧ [] = segs := by
      have := Option.some.inj h
      exact ⟨congrArg Prod.fst this, congrArg Prod.snd this⟩
    simpa [specRun] using hsim
  | cons p rest ih =>
    intro hwf s g s2 segs hsim h
    obtain ⟨f, v⟩ := p
    rw [runAcc_cons] at h
    cases hs : stepFrame fsc s f v with
    | none =>
      rw [hs] at h
      simp at h
    | some r =>
      rw [hs] at h
      simp only [Option.some_bind] at h
      cases hrest : runAcc fsc r.1 rest with
      | none =>
        rw [hrest] at h
        simp at h
      | some q =>
        obtain ⟨q1, qsegs⟩ := q
        rw [hrest] at h
        simp only [Option.map_some'] at h
        have hq1 : q1 = s2 := congrArg Prod.fst (Option.some.inj h)
        subst hq1
        have hsim2 := sim_step fsc s g f v r (hwf (f, v) (by simp)) hsim hs
        have hrec := ih (fun p hp => hwf p (by simp [hp])) r.1 (specStep g v) q1 qsegs hsim2 hrest
        simpa [specRun] using hrec

/-- C4 counterexample: after 21 consecutive silent frames from stream start the
loop holds silence_frames = 20 because of the leading-silence clamp, while the
number of consecutive silent frames seen since stream start is 21, so the two
are not equal as the claim asserts. -/
theorem counters_exact_cex :
    (runAcc 1 initState (List.replicate 21 (List.replicate 1 (0 : Int), false))).map
        (fun r => r.1.silence_frames) = some 20 ∧
    (specRun (0, 0)
      ((List.replicate 21 (List.replicate 1 (0 : Int), false)).map Prod.snd)).1 = 21 ∧
    (20 : Nat) ≠ 21 := by
  refine ⟨by decide, by decide, by decide⟩

/-- C4 amended: at every point of processing, speech_frame_count equals the
number of voice frames accumulated since the segment buffer was last cleared;
silence_frame_count equals the number of consecutive silent frames since the
most recent voice frame (or stream start / the last reset) clamped to
SILENCE_PADDING while no speech has been accumulated, and equals that number
exactly while speech has been accumulated. -/
theorem counters_clamped_invariant (fsc : Nat) (l : List (List Int × Bool))
    (s : AccState) (segs : List (List Int)) (hwf : WF fsc l)
    (h : runAcc fsc initState l = some (s, segs)) :
    s.speech_frames = (specRun (0, 0) (l.map Prod.snd)).2 ∧
    s.silence_frames =
      (if (specRun (0, 0) (l.map Prod.snd)).2 = 0
       then min (specRun (0, 0) (l.map Prod.snd)).1 SILENCE_PADDING
       else (specRun (0, 0) (l.map Prod.snd)).1) := by
  have hsim := sim_run fsc l hwf initState (0, 0) s segs (sim_init fsc) h
  exact ⟨hsim.1, hsim.2.1⟩

theorem counters_clamped_invariant_witness :
    (⟨List.replicate 20 (0 : Int), 20, 0⟩ : AccState).speech_frames
        = (specRun (0, 0)
            ((List.replicate 21 (List.replicate 1 (0 : Int), false)).map Prod.snd)).2 ∧
    (⟨List.replicate 20 (0 : Int), 20, 0⟩ : AccState).silence_frames
        = (if (specRun (0, 0)
              ((List.replicate 21 (List.replicate 1 (0 : Int), false)).map Prod.snd)).2 = 0
           then min (specRun (0, 0)
              ((List.replicate 21 (List.replicate 1 (0 : Int), false)).map Prod.snd)).1
              SILENCE_PADDING
           else (specRun (0, 0)
              ((List.replicate 21 (List.replicate 1 (0 : Int), false)).map Prod.snd)).1) :=
  counters_clamped_invariant 1 (List.replicate 21 (List.replicate 1 (0 : Int), false))
    ⟨List.replicate 20 (0 : Int), 20, 0⟩ []
    (fun p hp => (silentRun_replicate 1 21 p hp).1) (by decide)

theorem reachable_leading_inv (fsc : Nat) (s : AccState) (h : Reachable fsc s)
    (hsp : s.speech_frames = 0) :
    s.buffer.length = s.silence_frames * fsc ∧ s.silence_frames ≤ SILENCE_PADDING := by
  obtain ⟨l, segs, hwf, hrun⟩ := h
  have hsim := sim_run fsc l hwf initState (0, 0) s segs (sim_init fsc) hrun
  obtain ⟨h1, h2, _, h4⟩ := hsim
  have hg2 : (specRun (0, 0) (l.map Prod.snd)).2 = 0 := by rw [← h1]; exact hsp
  refine ⟨h4 hg2, ?_⟩
  rw [h2, if_pos hg2]
  exact Nat.min_le_right _ _

/-- C5: from any reachable state with speech_frame_count = 0, a silent frame
that pushes silence_frame_count past SILENCE_PADDING truncates the buffer to
exactly the most recent SILENCE_PADDING * fsc samples and clamps
silence_frame_count back to SILENCE_PADDING; a silent frame that does not push
it past SILENCE_PADDING leaves the buffer untruncated. -/
theorem leading_trim_exact (fsc : Nat) (s : AccState) (f : List Int)
    (hreach : Reachable fsc s) (hsp : s.speech_frames = 0) (hf : f.length = fsc) :
    (SILENCE_PADDING < s.silence_frames + 1 →
      stepFrame fsc s f false
        = some (⟨(s.buffer ++ f).drop ((s.buffer ++ f).length - fsc * SILENCE_PADDING),
                SILENCE_PADDING, 0⟩, none) ∧
      ((s.buffer ++ f).drop ((s.buffer ++ f).length - fsc * SILENCE_PADDING)).length
        = SILENCE_PADDING * fsc) ∧
    (s.silence_frames + 1 ≤ SILENCE_PADDING →
      stepFrame fsc s f false = some (⟨s.buffer ++ f, s.silence_frames + 1, 0⟩, none)) := by
  obtain ⟨hb, hsle⟩ := reachable_leading_inv fsc s hreach hsp
  constructor
  · intro htr
    have hs20 : s.silence_frames = SILENCE_PADDING := by omega
    have hlen : fsc * SILENCE_PADDING ≤ (s.buffer ++ f).length := by
      simp only [List.length_append, hb, hf, hs20]
      rw [Nat.mul_comm fsc SILENCE_PADDING]
      omega
    refine ⟨stepFrame_silent_trim fsc s f hsp htr hlen, ?_⟩
    simp only [List.length_drop]
    rw [Nat.mul_comm SILENCE_PADDING fsc]
    omega
  · intro hle
    exact stepFrame_silent_lead fsc s f hsp hle

theorem leading_trim_exact_witness :
    (stepFrame 1 ⟨List.replicate 20 (0 : Int), 20, 0⟩ (List.replicate 1 (0 : Int)) false
        = some (⟨((⟨List.replicate 20 (0 : Int), 20, 0⟩ : AccState).buffer
              ++ List.replicate 1 (0 : Int)).drop
            (((⟨List.replicate 20 (0 : Int), 20, 0⟩ : AccState).buffer
              ++ List.replicate 1 (0 : Int)).length - 1 * SILENCE_PADDING),
            SILENCE_PADDING, 0⟩, none) ∧
      (((⟨List.replicate 20 (0 : Int), 20, 0⟩ : AccState).buffer
          ++ List.replicate 1 (0 : Int)).drop
        (((⟨List.replicate 20 (0 : Int), 20, 0⟩ : AccState).buffer
          ++ List.replicate 1 (0 : Int)).length - 1 * SILENCE_PADDING)).length
        = SILENCE_PADDING * 1) :=
  (leading_trim_exact 1 ⟨List.replicate 20 (0 : Int), 20, 0⟩ (List.replicate 1 (0 : Int))
    ⟨List.replicate 20 (List.replicate 1 (0 : Int), false), [],
      fun p hp => (silentRun_replicate 1 20 p hp).1, by decide⟩
    rfl (by simp)).1 (by decide)

/-- C7: immediately after any emission the loop state has an empty buffer and
both counters reset to 0, so the next frame is processed as from stream
start. -/
theorem reset_after_emission (fsc : Nat) (s : AccState) (f : List Int) (v : Bool)
    (r : AccState × Option (List Int)) (seg : List Int)
    (h : stepFrame fsc s f v = some r) (hem : r.2 = some seg) :
    r.1 = initState := by
  cases v with
  | true =>
    rw [stepFrame_voice] at h
    obtain rfl := (Option.some.inj h).symm
    simp at hem
  | false =>
    by_cases hz : s.speech_frames = 0
    · by_cases htr : SILENCE_PADDING < s.silence_frames + 1
      · by_cases hguard : (s.buffer ++ f).length < fsc * SILENCE_PADDING
        · rw [stepFrame_silent_trim_panic fsc s f hz htr hguard] at h
          exact absurd h (by simp)
        · rw [stepFrame_silent_trim fsc s f hz htr (Nat.not_lt.mp hguard)] at h
          obtain rfl := (Option.some.inj h).symm
          simp at hem
      · rw [stepFrame_silent_lead fsc s f hz (Nat.not_lt.mp htr)] at h
        obtain rfl := (Option.some.inj h).symm
        simp at hem
    · by_cases hlt : s.silence_frames + 1 < SILENCE_PADDING
      · rw [stepFrame_silent_pause fsc s f hz hlt] at h
        obtain rfl := (Option.some.inj h).symm
        simp at hem
      · rw [stepFrame_silent_emit fsc s f hz (Nat.not_lt.mp hlt)] at h
        obtain rfl := (Option.some.inj h).symm
        rfl

theorem reset_after_emission_witness :
    ((⟨[], 0, 0⟩ : AccState), some (List.replicate 19 (0 : Int) ++ List.replicate 1 (0 : Int))).1
      = initState :=
  reset_after_emission 1 ⟨List.replicate 19 (0 : Int), 19, 1⟩ (List.replicate 1 (0 : Int))
    false
    ((⟨[], 0, 0⟩ : AccState), some (List.replicate 19 (0 : Int) ++ List.replicate 1 (0 : Int)))
    (List.replicate 19 (0 : Int) ++ List.replicate 1 (0 : Int)) (by decide) rfl

/-- C10: whenever the leading-silence trim is about to execute on a reachable
state, the appended buffer holds exactly (silence_frames + 1) * fsc samples,
which is at least (SILENCE_PADDING + 1) * fsc and at least the slice width
fsc * SILENCE_PADDING, so the slice start index cannot underflow and the step
cannot panic. -/
theorem trim_slice_in_bounds (fsc : Nat) (s : AccState) (f : List Int)
    (hreach : Reachable fsc s) (hsp : s.speech_frames = 0) (hf : f.length = fsc)
    (htr : SILENCE_PADDING < s.silence_frames + 1) :
    (s.buffer ++ f).length = (s.silence_frames + 1) * fsc ∧
    (SILENCE_PADDING + 1) * fsc ≤ (s.buffer ++ f).length ∧
    fsc * SILENCE_PADDING ≤ (s.buffer ++ f).length ∧
    stepFrame fsc s f false ≠ none := by
  obtain ⟨hb, hsle⟩ := reachable_leading_inv fsc s hreach hsp
  have hs20 : s.silence_frames = SILENCE_PADDING := by omega
  have h1 : (s.buffer ++ f).length = (s.silence_frames + 1) * fsc := by
    simp only [List.length_append, hb, hf]
    ring
  have h3 : fsc * SILENCE_PADDING ≤ (s.buffer ++ f).length := by
    rw [h1, hs20, Nat.succ_mul, Nat.mul_comm fsc SILENCE_PADDING]
    exact Nat.le_add_right _ _
  refine ⟨h1, ?_, h3, ?_⟩
  · rw [h1, hs20]
  · rw [stepFrame_silent_trim fsc s f hsp htr h3]
    simp

theorem trim_slice_in_bounds_witness :
    ((⟨List.replicate 20 (0 : Int), 20, 0⟩ : AccState).buffer
        ++ List.replicate 1 (0 : Int)).length
      = ((⟨List.replicate 20 (0 : Int), 20, 0⟩ : AccState).silence_frames + 1) * 1 ∧
    (SILENCE_PADDING + 1) * 1
      ≤ ((⟨List.replicate 20 (0 : Int), 20, 0⟩ : AccState).buffer
          ++ List.replicate 1 (0 : Int)).length ∧
    1 * SILENCE_PADDING
      ≤ ((⟨List.replicate 20 (0 : Int), 20, 0⟩ : AccState).buffer
          ++ List.replicate 1 (0 : Int)).length ∧
    stepFrame 1 ⟨List.replicate 20 (0 : Int), 20, 0⟩ (List.replicate 1 (0 : Int)) false
      ≠ none :=
  trim_slice_in_bounds 1 ⟨List.replicate 20 (0 : Int), 20, 0⟩ (List.replicate 1 (0 : Int))
    ⟨List.replicate 20 (List.replicate 1 (0 : Int), false), [],
      fun p hp => (silentRun_replicate 1 20 p hp).1, by decide⟩
    rfl (by simp) (by decide)

theorem emission_trigger_witness :
    (∃ seg : List Int,
       runAcc 160 initState
         (List.replicate 25 (List.replicate 160 (0 : Int), false)
           ++ List.replicate 5 (List.replicate 160 (0 : Int), true)
           ++ List.replicate 20 (List.replicate 160 (0 : Int), false))
         = some (initState, [seg]) ∧
       seg.length = (min (List.replicate 25 (List.replicate 160 (0 : Int), false)).length
           SILENCE_PADDING
         + (List.replicate 5 (List.replicate 160 (0 : Int), true)).length
         + SILENCE_PADDING) * 160) ∧
    (∃ s2 : AccState, ∃ seg : List Int,
       runAcc 160 initState
         (List.replicate 25 (List.replicate 160 (0 : Int), false)
           ++ List.replicate 5 (List.replicate 160 (0 : Int), true)
           ++ List.replicate 25 (List.replicate 160 (0 : Int), false))
         = some (s2, [seg]) ∧
       seg.length = 7200 ∧ s2.buffer.length = 800 ∧
       s2.silence_frames = 5 ∧ s2.speech_frames = 0) :=
  emission_trigger 160
    (List.replicate 25 (List.replicate 160 (0 : Int), false))
    (List.replicate 5 (List.replicate 160 (0 : Int), true))
    (List.replicate 20 (List.replicate 160 (0 : Int), false))
    (silentRun_replicate 160 25) (voiceRun_replicate 160 5) (by simp)
    (silentRun_replicate 160 20) (by simp [SILENCE_PADDING])

theorem no_premature_split_witness :
    ∃ seg : List Int,
      runAcc 1 initState
        (List.replicate 2 (List.replicate 1 (0 : Int), false)
          ++ List.replicate 1 (List.replicate 1 (0 : Int), true)
          ++ blockStream [(List.replicate 3 (List.replicate 1 (0 : Int), false),
              List.replicate 2 (List.replicate 1 (0 : Int), true))]
          ++ List.replicate 20 (List.replicate 1 (0 : Int), false))
        = some (⟨[], 0, 0⟩, [seg]) ∧
      seg.length = (min (List.replicate 2 (List.replicate 1 (0 : Int), false)).length
          SILENCE_PADDING
        + (List.replicate 1 (List.replicate 1 (0 : Int), true)).length
        + (blockStream [(List.replicate 3 (List.replicate 1 (0 : Int), false),
            List.replicate 2 (List.replicate 1 (0 : Int), true))]).length
        + SILENCE_PADDING) * 1 :=
  no_premature_split 1
    (List.replicate 2 (List.replicate 1 (0 : Int), false))
    (List.replicate 1 (List.replicate 1 (0 : Int), true))
    [(List.replicate 3 (List.replicate 1 (0 : Int), false),
      List.replicate 2 (List.replicate 1 (0 : Int), true))]
    (List.replicate 20 (List.replicate 1 (0 : Int), false))
    (silentRun_replicate 1 2) (voiceRun_replicate 1 1) (by simp)
    (by
      intro b hb
      simp only [List.mem_singleton] at hb
      subst hb
      exact ⟨silentRun_replicate 1 3, by simp, by norm_num [SILENCE_PADDING],
        voiceRun_replicate 1 2, by simp⟩)
    (by simp) (silentRun_replicate 1 20) (by simp [SILENCE_PADDING])

/-- Sample-rate tier mapping of `main`: `match sample_rate / 8000 { 1 => 8000,
2 | 3 => 16000, 4 | 5 => 32000, 6 => 48000, _ => todo!(...) }`.  The `none`
result models the fatal `todo!` on an unsupported ratio. -/
def vadSampleRate (sample_rate : Nat) : Option Nat :=
  match sample_rate / 8000 with
  | 1 => some 8000
  | 2 | 3 => some 16000
  | 4 | 5 => some 32000
  | 6 => some 48000
  | _ => none

theorem vadSampleRate_cases (rate : Nat) :
    vadSampleRate rate =
      (if rate / 8000 = 1 then some 8000
       else if rate / 8000 = 2 ∨ rate / 8000 = 3 then some 16000
       else if rate / 8000 = 4 ∨ rate / 8000 = 5 then some 32000
       else if rate / 8000 = 6 then some 48000
       else none) := by
  have key : ∀ q : Nat,
      (match q with
        | 1 => some 8000
        | 2 | 3 => some 16000
        | 4 | 5 => some 32000
        | 6 => some 48000
        | _ => none) =
      (if q = 1 then (some 8000 : Option Nat)
       else if q = 2 ∨ q = 3 then some 16000
       else if q = 4 ∨ q = 5 then some 32000
       else if q = 6 then some 48000
       else none) := by
    intro q
    rcases q with _ | _ | _ | _ | _ | _ | _ | n <;> simp
  exact key (rate / 8000)

/-- C6: the tier mapping is determined by floor(input_rate / 8000): ratio 1 →
8000, ratios 2 and 3 → 16000, ratios 4 and 5 → 32000, ratio 6 → 48000, and any
other ratio is rejected as a configuration failure rather than mapped to a
tier. -/
theorem rate_mapping (rate : Nat) :
    vadSampleRate rate =
      (if rate / 8000 = 1 then some 8000
       else if rate / 8000 = 2 ∨ rate / 8000 = 3 then some 16000
       else if rate / 8000 = 4 ∨ rate / 8000 = 5 then some 32000
       else if rate / 8000 = 6 then some 48000
       else none) :=
  vadSampleRate_cases rate

/-- Frame sample count from `main`:
`(opt.fvad_sample_length as u32 * (vad_sample_rate / 1000)) as usize`. -/
def frameSampleCount (durationMs vadRate : Nat) : Nat :=
  durationMs * (vadRate / 1000)

/-- Modelled from the spec: the frame windower that `main` realizes through the
dasp `buffered` ring-buffer signal and `signal.next_frames()` (the dasp
implementation is not part of this repository).  It groups the sample stream
into consecutive frames of `fsc` samples each, in source order, and a final
incomplete frame at end of stream is discarded. -/
def windowFrames (fsc : Nat) (samples : List Int) : List (List Int) :=
  if h : 0 < fsc ∧ fsc ≤ samples.length then
    samples.take fsc :: windowFrames fsc (samples.drop fsc)
  else []
termination_by samples.length
decreasing_by
  simp only [List.length_drop]
  omega

theorem windowFrames_nil (fsc : Nat) (samples : List Int)
    (h : ¬ (0 < fsc ∧ fsc ≤ samples.length)) : windowFrames fsc samples = [] := by
  conv_lhs => rw [windowFrames]
  rw [dif_neg h]

theorem windowFrames_cons (fsc : Nat) (samples : List Int)
    (h0 : 0 < fsc) (h : fsc ≤ samples.length) :
    windowFrames fsc samples
      = samples.take fsc :: windowFrames fsc (samples.drop fsc) := by
  conv_lhs => rw [windowFrames]
  rw [dif_pos ⟨h0, h⟩]

theorem windowFrames_spec (fsc : Nat) (h0 : 0 < fsc) : ∀ n : Nat, ∀ samples : List Int,
    samples.length ≤ n →
    (∀ f ∈ windowFrames fsc samples, f.length = fsc) ∧
    (windowFrames fsc samples).flatten
      = samples.take ((windowFrames fsc samples).length * fsc) ∧
    samples.length - (windowFrames fsc samples).length * fsc < fsc := by
  intro n
  induction n with
  | zero =>
    intro samples hn
    have hlen : samples.length = 0 := Nat.le_zero.mp hn
    rw [windowFrames_nil fsc samples (by omega)]
    refine ⟨by simp, by simp, by simp; omega⟩
  | succ n ih =>
    intro samples hn
    by_cases hc : fsc ≤ samples.length
    · rw [windowFrames_cons fsc samples h0 hc]
      obtain ⟨ih1, ih2, ih3⟩ := ih (samples.drop fsc) (by simp only [List.length_drop]; omega)
      refine ⟨?_, ?_, ?_⟩
      · intro f hf
        rcases List.mem_cons.mp hf with hf | hf
        · rw [hf]
          simp [List.length_take, Nat.min_eq_left hc]
        · exact ih1 f hf
      · simp only [List.flatten_cons, List.length_cons]
        rw [ih2]
        rw [show ((windowFrames fsc (samples.drop fsc)).length + 1) * fsc
            = fsc + (windowFrames fsc (samples.drop fsc)).length * fsc by ring]
        rw [List.take_add]
      · simp only [List.length_cons, List.length_drop] at ih3 ⊢
        rw [Nat.succ_mul]
        omega
    · rw [windowFrames_nil fsc samples (by omega)]
      refine ⟨by simp, by simp, by simp; omega⟩

/-- C8: for frame durations of 10, 20 or 30 ms and any classifier tier rate,
the frame sample count equals `frame_duration_ms * rate / 1000`, every produced
frame has exactly that many samples, the frames are consecutive and in source
order with no sample reused or dropped, and only a final incomplete frame of
fewer than `fsc` samples is discarded. -/
theorem frame_exactness (dur r : Nat) (samples : List Int)
    (hd : dur = 10 ∨ dur = 20 ∨ dur = 30)
    (hr : r = 8000 ∨ r = 16000 ∨ r = 32000 ∨ r = 48000) :
    frameSampleCount dur r = dur * r / 1000 ∧
    (∀ f ∈ windowFrames (frameSampleCount dur r) samples,
      f.length = frameSampleCount dur r) ∧
    (windowFrames (frameSampleCount dur r) samples).flatten
      = samples.take ((windowFrames (frameSampleCount dur r) samples).length
          * frameSampleCount dur r) ∧
    samples.length - (windowFrames (frameSampleCount dur r) samples).length
        * frameSampleCount dur r < frameSampleCount dur r := by
  have hpos : 0 < frameSampleCount dur r := by
    rcases hd with rfl | rfl | rfl <;> rcases hr with rfl | rfl | rfl | rfl <;> decide
  have heq : frameSampleCount dur r = dur * r / 1000 := by
    rcases hd with rfl | rfl | rfl <;> rcases hr with rfl | rfl | rfl | rfl <;> decide
  obtain ⟨h1, h2, h3⟩ :=
    windowFrames_spec (frameSampleCount dur r) hpos samples.length samples (Nat.le_refl _)
  exact ⟨heq, h1, h2, h3⟩

theorem frame_exactness_witness :
    frameSampleCount 10 8000 = 10 * 8000 / 1000 ∧
    (∀ f ∈ windowFrames (frameSampleCount 10 8000) (List.replicate 85 (0 : Int)),
      f.length = frameSampleCount 10 8000) ∧
    (windowFrames (frameSampleCount 10 8000) (List.replicate 85 (0 : Int))).flatten
      = (List.replicate 85 (0 : Int)).take
          ((windowFrames (frameSampleCount 10 8000) (List.replicate 85 (0 : Int))).length
            * frameSampleCount 10 8000) ∧
    (List.replicate 85 (0 : Int)).length
        - (windowFrames (frameSampleCount 10 8000) (List.replicate 85 (0 : Int))).length
          * frameSampleCount 10 8000 < frameSampleCount 10 8000 :=
  frame_exactness 10 8000 (List.replicate 85 (0 : Int)) (Or.inl rfl) (Or.inl rfl)

/-- The pipeline of `main` abstracted over the opaque classifier: the tier is
computed first (`none` models the fatal `todo!` on an unsupported rate, issued
before the processing loop starts), then the frame sample count is derived, the
stream is windowed into frames, each frame is classified, and the accumulator
loop runs; the emitted segments are returned in order. -/
def runMain (modelRate durMs : Nat) (classify : List Int → Bool) (stream : List Int) :
    Except String (List (List Int)) :=
  match vadSampleRate modelRate with
  | none => Except.error "unsupported sample rate"
  | some vr =>
    match runAcc (frameSampleCount durMs vr) initState
        ((windowFrames (frameSampleCount durMs vr) stream).map fun f => (f, classify f)) with
    | none => Except.error "slice start index underflow"
    | some r => Except.ok r.2

/-- C9: a configuration whose input sample rate has no tier mapping
(floor(rate / 8000) outside 1..6) terminates the run with the fatal
configuration diagnostic, for every classifier and every stream — the tier is
rejected before any frame is windowed, classified or accumulated — and no
segment is ever emitted in such a run. -/
theorem unsupported_rate_fatal (rate dur : Nat) (classify : List Int → Bool)
    (stream : List Int) (h : rate / 8000 = 0 ∨ 6 < rate / 8000) :
    runMain rate dur classify stream = Except.error "unsupported sample rate" ∧
    ∀ segs : List (List Int), runMain rate dur classify stream ≠ Except.ok segs := by
  have hnone : vadSampleRate rate = none := by
    rcases h with h | h
    · simp [vadSampleRate_cases, h]
    · rw [vadSampleRate_cases, if_neg (by omega), if_neg (by omega), if_neg (by omega),
        if_neg (by omega)]
  have hrm : runMain rate dur classify stream = Except.error "unsupported sample rate" := by
    unfold runMain
    rw [hnone]
  refine ⟨hrm, ?_⟩
  intro segs hcon
  rw [hrm] at hcon
  exact Except.noConfusion hcon

theorem unsupported_rate_fatal_witness :
    runMain 7000 10 (fun _ => true) [] = Except.error "unsupported sample rate" ∧
    ∀ segs : List (List Int), runMain 7000 10 (fun _ => true) [] ≠ Except.ok segs :=
  unsupported_rate_fatal 7000 10 (fun _ => true) [] (Or.inl (by decide))

end Speech2Text
